import Mathlib

/-!
Shallow embedding of the visbrain projection engine
(`visbrain/brain/base/SourcesBase.py`: `_modulation`, `_repartition`) and of
the overlay store of `visbrain/visuals/brain_visual.py` (`add_overlay`,
`update_colormap`, the `hemisphere` and `alpha` setters), together with
theorems checking the natural-language specification against this code.

Numeric modelling: python float arrays are idealized as rational numbers
(`ℚ`) where the code only adds, multiplies and compares, and as real
numbers (`ℝ`) where Euclidean distances (square roots) appear.  numpy
masked arrays are modelled as a value table together with a boolean mask.
Operations that make numpy raise (`.max()`/`.min()` of an empty array,
out-of-bounds assignment) are modelled with `Except`/an error component
carrying the message of the exception.
-/

set_option autoImplicit false

namespace Visbrain

/-- A 3-D point with rational coordinates (models one row of a float32
`(N, 3)` numpy array). -/
structure Pt where
  x : ℚ
  y : ℚ
  z : ℚ
  deriving DecidableEq, Repr

instance : Inhabited Pt := ⟨⟨0, 0, 0⟩⟩

/-- Squared Euclidean distance between two points (exact, rational). -/
def sqdist (a b : Pt) : ℚ :=
  (a.x - b.x) ^ 2 + (a.y - b.y) ^ 2 + (a.z - b.z) ^ 2

/-- Euclidean distance between two points, as computed by
`scipy.spatial.distance.cdist` in `_modulation` / `_repartition`. -/
noncomputable def edist (a b : Pt) : ℝ :=
  Real.sqrt ((sqdist a b : ℚ) : ℝ)

/-- Decidable (squared) form of the distance test `eucl <= radius` of
`_modulation` line 320 / `_repartition` line 387; `distLe_iff` below proves
it equivalent to `edist a b ≤ radius`. -/
def distLe (a b : Pt) (r : ℚ) : Bool :=
  decide (0 ≤ r) && decide (sqdist a b ≤ r ^ 2)

theorem sqdist_nonneg (a b : Pt) : 0 ≤ sqdist a b := by
  unfold sqdist
  positivity

theorem distLe_iff (a b : Pt) (r : ℚ) :
    distLe a b r = true ↔ edist a b ≤ (r : ℝ) := by
  have hs : (0 : ℝ) ≤ ((sqdist a b : ℚ) : ℝ) := by
    exact_mod_cast sqdist_nonneg a b
  rw [distLe, edist, Real.sqrt_le_iff]
  constructor
  · rintro h
    simp only [Bool.and_eq_true, decide_eq_true_eq] at h
    refine ⟨by exact_mod_cast h.1, by exact_mod_cast h.2⟩
  · rintro ⟨h1, h2⟩
    simp only [Bool.and_eq_true, decide_eq_true_eq]
    refine ⟨by exact_mod_cast h1, by exact_mod_cast h2⟩

/-- `np.sign` of a rational value: -1, 0 or 1. -/
def qsign (q : ℚ) : ℤ :=
  if q < 0 then -1 else if q = 0 then 0 else 1

/-- Hemisphere rule of `_modulation` lines 322-327 (identically
`_repartition` lines 389-394): an entry of the inclusion mask survives the
`contribute` pass iff `contribute` is true, or the corner's x-sign (`vsign`)
equals the source's x-sign (`xsign`), or the *source's* x-sign is zero
(`isign = vsign != xsign AND xsign != 0` entries are set to `False`).
`c` is the face-corner position, `s` the source position. -/
def hemiOk (contribute : Bool) (c s : Pt) : Bool :=
  contribute || decide (qsign c.x = qsign s.x) || decide (qsign s.x = 0)

/-- One entry of the inclusion mask `mask` of `_modulation` (lines 320-327)
and `_repartition` (lines 387-394): within radius, and allowed by the
hemisphere rule. -/
def included (radius : ℚ) (contribute : Bool) (c s : Pt) : Bool :=
  distLe c s radius && hemiOk contribute c s

/-- C2 counterexample: the corner `(0,0,0)` has x-sign exactly zero and the
source `(1,0,0)` is within the radius 5, yet with `contribute = false` the
code excludes the source: `sign(0)` is treated as neutral for the *source's*
x-coordinate, not for the corner's, contrary to the claim. -/
theorem corner_zero_sign_excluded :
    distLe ⟨0, 0, 0⟩ ⟨1, 0, 0⟩ 5 = true ∧
    qsign ((⟨0, 0, 0⟩ : Pt)).x = 0 ∧
    included 5 false ⟨0, 0, 0⟩ ⟨1, 0, 0⟩ = false := by
  refine ⟨?_, by norm_num [qsign], ?_⟩
  · simp only [distLe, sqdist]
    norm_num
  · simp only [included, distLe, hemiOk, qsign, sqdist]
    norm_num

/-- C2 amended: with `contribute = false` a source is included for a corner
iff its distance is within the radius AND (its x-sign matches the corner's
x-sign OR the *source's* x-sign is exactly zero); in particular a source
whose x-coordinate equals 0 is eligible for corners of both hemispheres,
while a corner at x = 0 only receives sources whose x-sign is zero. -/
theorem included_characterization (radius : ℚ) (c s : Pt) :
    (included radius false c s = true ↔
      (edist c s ≤ (radius : ℝ) ∧ (qsign c.x = qsign s.x ∨ qsign s.x = 0))) ∧
    (qsign s.x = 0 → included radius false c s = distLe c s radius) := by
  constructor
  · rw [included, Bool.and_eq_true, distLe_iff, hemiOk]
    simp
  · intro h0
    rw [included, hemiOk]
    simp [h0]

/-! ## The projection engine (`SourcesBase._modulation` / `_repartition`)

The face-indexed vertices `v` of shape `(nv, 3, 3)` become a list of corner
triples; the per-corner loop index `k` becomes a `Fin 3`.  The distance
matrix of corner `k` is addressed by a face index `i` and an active-source
index `j`.
-/

/-- The three corner positions of one face (`v[i, 0, :]`, `v[i, 1, :]`,
`v[i, 2, :]`). -/
structure Face3 where
  c0 : Pt
  c1 : Pt
  c2 : Pt
  deriving DecidableEq, Repr

instance : Inhabited Face3 := ⟨⟨default, default, default⟩⟩

/-- Corner `k` of a face: `v[i, k, :]`. -/
def Face3.corner (f : Face3) (k : Fin 3) : Pt :=
  if k.val = 0 then f.c0 else if k.val = 1 then f.c1 else f.c2

/-- The source state used by the projection methods: coordinates `self.xyz`,
underlying data `self.data.data`, and the mask `self.data.mask` (three
parallel sequences). -/
structure SourceSet where
  xyz : List Pt
  data : List ℚ
  mask : List Bool
  deriving DecidableEq, Repr

/-- `self.xyz[~self.data.mask]`: coordinates of the active sources. -/
def activeXyz (s : SourceSet) : List Pt :=
  ((s.xyz.zip s.mask).filter (fun p => !p.2)).map Prod.fst

/-- `self.data.data[~self.data.mask]`: data of the active sources. -/
def activeData (s : SourceSet) : List ℚ :=
  ((s.data.zip s.mask).filter (fun p => !p.2)).map Prod.fst

/-- Maximum of a list, folding from its head (`ndarray.max()`); the junk
value on `[]` is never used: the embeddings guard the empty case with the
numpy exception. -/
def listMax {α : Type} [LinearOrder α] [Inhabited α] : List α → α
  | [] => default
  | x :: xs => xs.foldl max x

/-- Minimum of a list, folding from its head (`ndarray.min()`). -/
def listMin {α : Type} [LinearOrder α] [Inhabited α] : List α → α
  | [] => default
  | x :: xs => xs.foldl min x

theorem le_foldl_max {α : Type} [LinearOrder α] {l : List α} {a : α} :
    a ≤ l.foldl max a := by
  induction l generalizing a with
  | nil => exact le_refl a
  | cons x xs ih => exact le_trans (le_max_left a x) ih

theorem foldl_max_le_of_mem {α : Type} [LinearOrder α] {l : List α} {a x : α}
    (hx : x ∈ l) : x ≤ l.foldl max a := by
  induction l generalizing a with
  | nil => cases hx
  | cons y ys ih =>
    rcases List.mem_cons.1 hx with h | h
    · subst h
      exact le_trans (le_max_right a x) le_foldl_max
    · exact ih h

theorem foldl_max_mem {α : Type} [LinearOrder α] {l : List α} {a : α} :
    l.foldl max a ∈ a :: l := by
  induction l generalizing a with
  | nil => simp
  | cons y ys ih =>
    rw [List.foldl_cons]
    rcases List.mem_cons.1 (@ih (max a y)) with h' | h'
    · rw [h']
      rcases max_choice a y with hc | hc <;> rw [hc] <;> simp
    · exact List.mem_cons.2 (Or.inr (List.mem_cons.2 (Or.inr h')))

theorem le_listMax {α : Type} [LinearOrder α] [Inhabited α] {l : List α}
    {x : α} (hx : x ∈ l) : x ≤ listMax l := by
  cases l with
  | nil => cases hx
  | cons y ys =>
    rcases List.mem_cons.1 hx with h | h
    · subst h
      exact le_foldl_max
    · exact foldl_max_le_of_mem h

theorem listMax_mem {α : Type} [LinearOrder α] [Inhabited α] {l : List α}
    (h : l ≠ []) : listMax l ∈ l := by
  cases l with
  | nil => exact absurd rfl h
  | cons y ys => exact foldl_max_mem

/-- All (face, source) index pairs of one corner's distance matrix, row by
row. -/
def pairList (nv ns : ℕ) : List (ℕ × ℕ) :=
  (List.range nv).flatMap (fun i => (List.range ns).map (fun j => (i, j)))

theorem mem_pairList {nv ns i j : ℕ} :
    (i, j) ∈ pairList nv ns ↔ i < nv ∧ j < ns := by
  simp [pairList, List.mem_flatMap, List.mem_map, List.mem_range,
    Prod.mk.injEq]

/-- Entry `(i, j)` of the distance matrix `eucl = cdist(v[:, k, :], xyz)` of
corner `k`. -/
noncomputable def euclEntry (v : List Face3) (xyz : List Pt) (k : Fin 3)
    (i j : ℕ) : ℝ :=
  edist ((v.getD i default).corner k) (xyz.getD j default)

/-- The distance matrix of corner `k`, flattened. -/
noncomputable def euclAll (v : List Face3) (xyz : List Pt) (k : Fin 3) :
    List ℝ :=
  (pairList v.length xyz.length).map (fun p => euclEntry v xyz k p.1 p.2)

/-- `eucl.max()` for corner `k`: the maximum over ALL entries of that
corner's distance matrix (line 329), taken before any masking. -/
noncomputable def euclMax (v : List Face3) (xyz : List Pt) (k : Fin 3) : ℝ :=
  listMax (euclAll v xyz k)

/-- Weight entry of corner `k`: `eucl * (-1. / eucl.max()) + 1.`
(lines 329-330), applied to every entry of the distance matrix. -/
noncomputable def wEntry (v : List Face3) (xyz : List Pt) (k : Fin 3)
    (i j : ℕ) : ℝ :=
  euclEntry v xyz k i j * (-1 / euclMax v xyz k) + 1

/-- Convenience: the inclusion-mask entry for face `i`, source `j`,
corner `k`. -/
def inclEntry (v : List Face3) (xyz : List Pt) (radius : ℚ)
    (contribute : Bool) (k : Fin 3) (i j : ℕ) : Bool :=
  included radius contribute ((v.getD i default).corner k)
    (xyz.getD j default)

/-- `prop[:, k] = np.sum(mask, axis=1)` (line 339): the number of included
sources of face `i` at corner `k`. -/
def inclCount (v : List Face3) (xyz : List Pt) (radius : ℚ)
    (contribute : Bool) (k : Fin 3) (i : ℕ) : ℕ :=
  ((List.range xyz.length).filter
    (fun j => inclEntry v xyz radius contribute k i j)).length

/-- `np.ma.dot(eucl, data, strict=False)` row `i` (line 336): sum of
`weight * data` over the included (unmasked) sources; masked entries of the
weight matrix count as zero. -/
noncomputable def dotK (v : List Face3) (xyz : List Pt) (data : List ℚ)
    (radius : ℚ) (contribute : Bool) (k : Fin 3) (i : ℕ) : ℝ :=
  ∑ j ∈ (Finset.range xyz.length).filter
      (fun j => inclEntry v xyz radius contribute k i j = true),
    wEntry v xyz k i j * ((data.getD j 0 : ℚ) : ℝ)

/-- `nnz = np.nonzero(mask.sum(0))` (line 340): the active sources included
by at least one face at corner `k`. -/
def nnzK (v : List Face3) (xyz : List Pt) (radius : ℚ) (contribute : Bool)
    (k : Fin 3) : List ℕ :=
  (List.range xyz.length).filter
    (fun j => (List.range v.length).any
      (fun i => inclEntry v xyz radius contribute k i j))

/-- `minmax[k, :] = [data[nnz].min(), data[nnz].max()]` (line 341); numpy
raises on an empty selection, which happens exactly when no source is
included by any face at corner `k`. -/
def minmaxK (v : List Face3) (xyz : List Pt) (data : List ℚ) (radius : ℚ)
    (contribute : Bool) (k : Fin 3) : Except String (ℚ × ℚ) :=
  match nnzK v xyz radius contribute k with
  | [] => .error
      "zero-size array to reduction operation minimum which has no identity"
  | j :: js => .ok
      (listMin ((j :: js).map (fun j' => data.getD j' 0)),
       listMax ((j :: js).map (fun j' => data.getD j' 0)))

/-- A face-indexed `(N, 3)` masked float matrix (`np.ma` array): a value
table plus a boolean mask (`true` = invalid entry). -/
structure MaskedMatR where
  rows : ℕ
  val : ℕ → Fin 3 → ℝ
  mask : ℕ → Fin 3 → Bool

/-- The modulation matrix before the final rescale: `np.ma.dot` row divided
by `prop` after `prop[prop == 0.] = 1.` (lines 336-345); an entry is masked
iff its face corner has no included source. -/
noncomputable def modRaw (v : List Face3) (xyz : List Pt) (data : List ℚ)
    (radius : ℚ) (contribute : Bool) : MaskedMatR where
  rows := v.length
  val i k :=
    dotK v xyz data radius contribute k i /
      (if inclCount v xyz radius contribute k i = 0 then 1
       else (inclCount v xyz radius contribute k i : ℝ))
  mask i k := decide (inclCount v xyz radius contribute k i = 0)

/-- Modelled from the spec: `normalize` from `visbrain.utils` is not under
`src/`.  Spec §4.1 step 6, §7 and §8: the valid (unmasked) modulation
entries are linearly rescaled so that their observed minimum/maximum map
onto `(tomin, tomax)`; invalid (masked) entries keep their floor value;
when there is no valid entry, or the observed minimum equals the observed
maximum, the array is returned unchanged (identity rescale — no division by
a zero range, no error).  `validSet` is the set of valid (unmasked) entry
values of the masked matrix. -/
def validSet (m : MaskedMatR) : Set ℝ :=
  {x | ∃ i : ℕ, ∃ k : Fin 3, i < m.rows ∧ m.mask i k = false ∧ x = m.val i k}

open Classical in
noncomputable def normalizeMasked (m : MaskedMatR) (tomin tomax : ℝ) :
    MaskedMatR :=
  if validSet m = ∅ ∨ sInf (validSet m) = sSup (validSet m) then m
  else
    { rows := m.rows
      val := fun i k =>
        if m.mask i k then m.val i k
        else tomin + (m.val i k - sInf (validSet m)) * (tomax - tomin) /
          (sSup (validSet m) - sInf (validSet m))
      mask := m.mask }

theorem normalizeMasked_of_mask (m : MaskedMatR) (a b : ℝ) (i : ℕ)
    (k : Fin 3) (h : m.mask i k = true) :
    (normalizeMasked m a b).val i k = m.val i k ∧
    (normalizeMasked m a b).mask i k = true := by
  unfold normalizeMasked
  split
  · exact ⟨rfl, h⟩
  · exact ⟨by simp [h], h⟩

/-- Embedding of `SourcesBase._modulation` (lines 278-349).  The error cases
are numpy's empty-reduction `ValueError`s: `eucl.max()` on an empty distance
matrix (no face or no active source), raised in the `k = 0` iteration before
anything else, and `data[nnz].min()` when corner `k`'s set of included
sources is empty, raised at the first such `k`. -/
noncomputable def modulation (s : SourceSet) (v : List Face3) (radius : ℚ)
    (contribute : Bool) : Except String MaskedMatR :=
  let xyz := activeXyz s
  let data := activeData s
  if v.length = 0 ∨ xyz.length = 0 then
    .error
      "zero-size array to reduction operation maximum which has no identity"
  else do
    let mm0 ← minmaxK v xyz data radius contribute 0
    let mm1 ← minmaxK v xyz data radius contribute 1
    let mm2 ← minmaxK v xyz data radius contribute 2
    let mmAll := [mm0.1, mm0.2, mm1.1, mm1.2, mm2.1, mm2.2]
    .ok (normalizeMasked (modRaw v xyz data radius contribute)
      ((listMin mmAll : ℚ) : ℝ) ((listMax mmAll : ℚ) : ℝ))

/-- A face-indexed `(N, 3)` masked integer matrix. -/
structure MaskedMatN where
  rows : ℕ
  val : ℕ → Fin 3 → ℕ
  mask : ℕ → Fin 3 → Bool

/-- Embedding of `SourcesBase._repartition` (lines 351-402): entry `(i, k)`
is the count of included sources (`sm = np.sum(mask, 1)`), masked exactly
where the count is zero (`smmask = np.invert(sm.astype(bool))`). -/
def repartition (s : SourceSet) (v : List Face3) (radius : ℚ)
    (contribute : Bool) : MaskedMatN where
  rows := v.length
  val i k := inclCount v (activeXyz s) radius contribute k i
  mask i k := decide (inclCount v (activeXyz s) radius contribute k i = 0)

/-- The *claim's* candidate for `maxDistance` in the weight formula (a
second definition following the spec's words, to be compared with
`euclMax`): the maximum distance over the included entries of corner `k`'s
set only. -/
noncomputable def claimMaxIncluded (v : List Face3) (xyz : List Pt)
    (radius : ℚ) (contribute : Bool) (k : Fin 3) : ℝ :=
  listMax (((pairList v.length xyz.length).filter
    (fun p => inclEntry v xyz radius contribute k p.1 p.2)).map
      (fun p => euclEntry v xyz k p.1 p.2))

theorem except_bind_ok {ε α β : Type} (a : α) (f : α → Except ε β) :
    (Except.ok a : Except ε α) >>= f = f a := rfl

/-- C1 amended: each distance of corner `k`'s set is transformed into the
weight `1 - distance / maxDistance`, where `maxDistance` is the maximum
distance over ALL entries of that corner's distance matrix (all faces ×
all active sources, `eucl.max()` before masking); entries excluded by the
radius or hemisphere rule DO participate in determining `maxDistance`. -/
theorem weight_uses_matrix_max (v : List Face3) (xyz : List Pt) (k : Fin 3)
    (i j : ℕ) (hi : i < v.length) (hj : j < xyz.length) :
    wEntry v xyz k i j = 1 - euclEntry v xyz k i j / euclMax v xyz k ∧
    euclEntry v xyz k i j ≤ euclMax v xyz k ∧
    euclMax v xyz k ∈ euclAll v xyz k := by
  have hmem : euclEntry v xyz k i j ∈ euclAll v xyz k :=
    List.mem_map.2 ⟨(i, j), mem_pairList.2 ⟨hi, hj⟩, rfl⟩
  refine ⟨by rw [wEntry]; ring, ?_, ?_⟩
  · rw [euclMax]
    exact le_listMax hmem
  · rw [euclMax]
    apply listMax_mem
    intro hnil
    rw [hnil] at hmem
    cases hmem

/-- A single face with corners on the z-axis: corner 0 is the origin. -/
def vNear : List Face3 := [⟨⟨0, 0, 0⟩, ⟨0, 0, 1⟩, ⟨0, 0, 2⟩⟩]

/-- Two sources on the x-axis: distances 1 and 10 from the origin corner. -/
def xyzPair : List Pt := [⟨1, 0, 0⟩, ⟨10, 0, 0⟩]

theorem weight_uses_matrix_max_witness :
    0 < vNear.length ∧ 0 < xyzPair.length ∧
    (wEntry vNear xyzPair 0 0 0 =
        1 - euclEntry vNear xyzPair 0 0 0 / euclMax vNear xyzPair 0 ∧
      euclEntry vNear xyzPair 0 0 0 ≤ euclMax vNear xyzPair 0 ∧
      euclMax vNear xyzPair 0 ∈ euclAll vNear xyzPair 0) :=
  ⟨by norm_num [vNear], by norm_num [xyzPair],
   weight_uses_matrix_max vNear xyzPair 0 0 0 (by norm_num [vNear])
     (by norm_num [xyzPair])⟩

theorem euclEntry_vNear_0 : euclEntry vNear xyzPair 0 0 0 = 1 := by
  have hs : sqdist (⟨0, 0, 0⟩ : Pt) ⟨1, 0, 0⟩ = 1 := by norm_num [sqdist]
  rw [euclEntry]
  norm_num [vNear, xyzPair, Face3.corner, edist, hs, Real.sqrt_one]

theorem euclEntry_vNear_1 : euclEntry vNear xyzPair 0 0 1 = 10 := by
  have hs : sqdist (⟨0, 0, 0⟩ : Pt) ⟨10, 0, 0⟩ = 100 := by norm_num [sqdist]
  rw [euclEntry]
  norm_num [vNear, xyzPair, Face3.corner, edist, hs]
  rw [show (100 : ℝ) = (10 : ℝ) ^ 2 by norm_num]
  rw [Real.sqrt_sq (by norm_num : (0 : ℝ) ≤ 10)]

theorem euclMax_vNear : euclMax vNear xyzPair 0 = 10 := by
  have hAll : euclAll vNear xyzPair 0 =
      [euclEntry vNear xyzPair 0 0 0, euclEntry vNear xyzPair 0 0 1] := by
    simp [euclAll, pairList, vNear, xyzPair, List.range_succ]
  rw [euclMax, hAll, euclEntry_vNear_0, euclEntry_vNear_1]
  norm_num [listMax, max_def]

/-- C1 counterexample: corner `(0,0,0)` with sources at distances 1
(included: within radius 5) and 10 (not included).  The code's weight for
the included source is `1 - 1/10 = 9/10` — its `maxDistance` is the max over
ALL entries, 10 — whereas the claim's formula, with `maxDistance` the max
over included entries only (1), would give `1 - 1/1 = 0`. -/
theorem weight_not_included_max :
    inclEntry vNear xyzPair 5 true 0 0 0 = true ∧
    inclEntry vNear xyzPair 5 true 0 0 1 = false ∧
    wEntry vNear xyzPair 0 0 0 = 9 / 10 ∧
    claimMaxIncluded vNear xyzPair 5 true 0 = 1 ∧
    wEntry vNear xyzPair 0 0 0 ≠
      1 - euclEntry vNear xyzPair 0 0 0 /
        claimMaxIncluded vNear xyzPair 5 true 0 := by
  have hin : inclEntry vNear xyzPair 5 true 0 0 0 = true := by
    norm_num [inclEntry, included, distLe, hemiOk, sqdist, vNear, xyzPair,
      Face3.corner]
  have hout : inclEntry vNear xyzPair 5 true 0 0 1 = false := by
    norm_num [inclEntry, included, distLe, hemiOk, sqdist, vNear, xyzPair,
      Face3.corner]
  have hfil : (pairList vNear.length xyzPair.length).filter
      (fun p => inclEntry vNear xyzPair 5 true 0 p.1 p.2) = [(0, 0)] := by
    have hp : pairList vNear.length xyzPair.length = [(0, 0), (0, 1)] := by
      simp [pairList, vNear, xyzPair, List.range_succ]
    rw [hp]
    simp [List.filter_cons, hin, hout]
  have hclaim : claimMaxIncluded vNear xyzPair 5 true 0 = 1 := by
    rw [claimMaxIncluded, hfil]
    simp [listMax, euclEntry_vNear_0]
  have hw : wEntry vNear xyzPair 0 0 0 = 9 / 10 := by
    rw [wEntry, euclEntry_vNear_0, euclMax_vNear]
    norm_num
  refine ⟨hin, hout, hw, hclaim, ?_⟩
  rw [hw, hclaim, euclEntry_vNear_0]
  norm_num

theorem inclEntry_eq_false_of_count_zero {v : List Face3} {xyz : List Pt}
    {radius : ℚ} {contribute : Bool} {k : Fin 3} {i : ℕ}
    (h : inclCount v xyz radius contribute k i = 0) :
    ∀ j, j < xyz.length → inclEntry v xyz radius contribute k i j = false := by
  intro j hj
  unfold inclCount at h
  rw [List.length_eq_zero] at h
  by_contra hne
  rw [Bool.not_eq_false] at hne
  have hmem : j ∈ (List.range xyz.length).filter
      (fun j => inclEntry v xyz radius contribute k i j) :=
    List.mem_filter.2 ⟨List.mem_range.2 hj, hne⟩
  rw [h] at hmem
  cases hmem

/-- C4: a face corner whose included-source set is empty gets, whenever the
projection succeeds, the modulation value 0 — the divisor is 1, not 0, so no
NaN or infinity arises — and its repartition entry is masked (invalid)
rather than reported as the count 0. -/
theorem empty_corner_floor (s : SourceSet) (v : List Face3) (radius : ℚ)
    (contribute : Bool) (i : ℕ) (k : Fin 3)
    (hempty : inclCount v (activeXyz s) radius contribute k i = 0)
    (h0 : nnzK v (activeXyz s) radius contribute 0 ≠ [])
    (h1 : nnzK v (activeXyz s) radius contribute 1 ≠ [])
    (h2 : nnzK v (activeXyz s) radius contribute 2 ≠ []) :
    (∃ m : MaskedMatR, modulation s v radius contribute = .ok m ∧
      m.val i k = 0 ∧ m.mask i k = true) ∧
    (repartition s v radius contribute).mask i k = true ∧
    (repartition s v radius contribute).val i k = 0 := by
  have hlen : ¬(v.length = 0 ∨ (activeXyz s).length = 0) := by
    rintro (hv | hx) <;> apply h0 <;> unfold nnzK
    · rw [hv]; simp
    · rw [hx]; simp
  obtain ⟨p0, hp0⟩ :
      ∃ p, minmaxK v (activeXyz s) (activeData s) radius contribute 0 =
        .ok p := by
    unfold minmaxK
    cases hc : nnzK v (activeXyz s) radius contribute 0 with
    | nil => exact absurd hc h0
    | cons a as => exact ⟨_, rfl⟩
  obtain ⟨p1, hp1⟩ :
      ∃ p, minmaxK v (activeXyz s) (activeData s) radius contribute 1 =
        .ok p := by
    unfold minmaxK
    cases hc : nnzK v (activeXyz s) radius contribute 1 with
    | nil => exact absurd hc h1
    | cons a as => exact ⟨_, rfl⟩
  obtain ⟨p2, hp2⟩ :
      ∃ p, minmaxK v (activeXyz s) (activeData s) radius contribute 2 =
        .ok p := by
    unfold minmaxK
    cases hc : nnzK v (activeXyz s) radius contribute 2 with
    | nil => exact absurd hc h2
    | cons a as => exact ⟨_, rfl⟩
  have hmask : (modRaw v (activeXyz s) (activeData s) radius
      contribute).mask i k = true := by
    simp [modRaw, hempty]
  have hdot : dotK v (activeXyz s) (activeData s) radius contribute k i
      = 0 := by
    unfold dotK
    apply Finset.sum_eq_zero
    intro j hjmem
    rw [Finset.mem_filter, Finset.mem_range] at hjmem
    rw [inclEntry_eq_false_of_count_zero hempty j hjmem.1] at hjmem
    exact absurd hjmem.2 (by simp)
  have hval : (modRaw v (activeXyz s) (activeData s) radius
      contribute).val i k = 0 := by
    simp [modRaw, hempty, hdot]
  obtain ⟨a, b, hmod⟩ : ∃ a b : ℝ, modulation s v radius contribute =
      .ok (normalizeMasked (modRaw v (activeXyz s) (activeData s) radius
        contribute) a b) := by
    refine ⟨((listMin [p0.1, p0.2, p1.1, p1.2, p2.1, p2.2] : ℚ) : ℝ),
      ((listMax [p0.1, p0.2, p1.1, p1.2, p2.1, p2.2] : ℚ) : ℝ), ?_⟩
    rw [modulation]
    simp only [if_neg hlen]
    rw [hp0, except_bind_ok, hp1, except_bind_ok, hp2, except_bind_ok]
  refine ⟨⟨_, hmod, ?_, ?_⟩,
    by simp [repartition, hempty], by simp [repartition, hempty]⟩
  · rw [(normalizeMasked_of_mask _ a b i k hmask).1, hval]
  · exact (normalizeMasked_of_mask _ a b i k hmask).2

/-- Two faces: one next to the single source, one far away (x = 50). -/
def vTwo : List Face3 :=
  [⟨⟨1, 0, 0⟩, ⟨2, 0, 0⟩, ⟨2, 0, 1⟩⟩, ⟨⟨50, 0, 0⟩, ⟨50, 0, 1⟩, ⟨50, 1, 0⟩⟩]

/-- A single active source at `(1, 0, 0)` with data value 2. -/
def sNear : SourceSet := ⟨[⟨1, 0, 0⟩], [2], [false]⟩

theorem empty_corner_floor_witness :
    inclCount vTwo (activeXyz sNear) 5 true 0 1 = 0 ∧
    ((∃ m : MaskedMatR, modulation sNear vTwo 5 true = .ok m ∧
        m.val 1 0 = 0 ∧ m.mask 1 0 = true) ∧
      (repartition sNear vTwo 5 true).mask 1 0 = true ∧
      (repartition sNear vTwo 5 true).val 1 0 = 0) :=
  ⟨by
    norm_num [inclCount, activeXyz, sNear, vTwo, inclEntry, included, distLe,
      hemiOk, sqdist, Face3.corner, List.range_succ],
   empty_corner_floor sNear vTwo 5 true 1 0
     (by
      norm_num [inclCount, activeXyz, sNear, vTwo, inclEntry, included,
        distLe, hemiOk, sqdist, Face3.corner, List.range_succ])
     (by
      norm_num [nnzK, activeXyz, sNear, vTwo, inclEntry, included, distLe,
        hemiOk, sqdist, Face3.corner, List.range_succ])
     (by
      norm_num [nnzK, activeXyz, sNear, vTwo, inclEntry, included, distLe,
        hemiOk, sqdist, Face3.corner, List.range_succ])
     (by
      norm_num [nnzK, activeXyz, sNear, vTwo, inclEntry, included, distLe,
        hemiOk, sqdist, Face3.corner, List.range_succ])⟩

/-- C5: invoking `_modulation` with zero active (non-masked) sources raises
an error signalling the empty input (the `ValueError` of `eucl.max()` on the
empty distance matrix, raised synchronously at `k = 0`), distinctly from
returning a zero-valued result array. -/
theorem modulation_no_active_raises (s : SourceSet) (v : List Face3)
    (radius : ℚ) (contribute : Bool) (h : activeXyz s = []) :
    modulation s v radius contribute =
      .error
        "zero-size array to reduction operation maximum which has no identity" := by
  simp [modulation, h]

/-- A single source that is masked: zero active sources. -/
def sAllMasked : SourceSet := ⟨[⟨1, 0, 0⟩], [2], [true]⟩

/-- A single face, used as the projection target of several witnesses. -/
def vOne : List Face3 := [⟨⟨1, 0, 0⟩, ⟨2, 0, 0⟩, ⟨2, 0, 1⟩⟩]

theorem modulation_no_active_raises_witness :
    activeXyz sAllMasked = [] ∧
    modulation sAllMasked vOne 5 false =
      .error
        "zero-size array to reduction operation maximum which has no identity" :=
  ⟨rfl, modulation_no_active_raises sAllMasked vOne 5 false rfl⟩

theorem nnzK_eq_nil {v : List Face3} {xyz : List Pt} {radius : ℚ}
    {contribute : Bool} (k : Fin 3)
    (h : ∀ i, i < v.length → ∀ j, j < xyz.length →
      inclEntry v xyz radius contribute k i j = false) :
    nnzK v xyz radius contribute k = [] := by
  unfold nnzK
  rw [List.filter_eq_nil_iff]
  intro j hj
  rw [List.mem_range] at hj
  rw [Bool.not_eq_true, ← Bool.not_eq_true, List.any_eq_true]
  rintro ⟨i, hi, hinc⟩
  rw [List.mem_range] at hi
  rw [h i hi j hj] at hinc
  exact Bool.false_ne_true hinc

/-- C3 amended: if every corner's corner-set has zero included sources (no
active source within radius of any face corner), `_modulation` does NOT
perform an identity rescale; it raises numpy's empty-reduction `ValueError`
while computing `data[nnz].min()` for the first corner. -/
theorem modulation_all_empty_raises (s : SourceSet) (v : List Face3)
    (radius : ℚ) (contribute : Bool) (hv : v.length ≠ 0)
    (hx : (activeXyz s).length ≠ 0)
    (h : ∀ i, i < v.length → ∀ j, j < (activeXyz s).length → ∀ k : Fin 3,
      inclEntry v (activeXyz s) radius contribute k i j = false) :
    modulation s v radius contribute =
      .error
        "zero-size array to reduction operation minimum which has no identity" := by
  have h0 : nnzK v (activeXyz s) radius contribute 0 = [] :=
    nnzK_eq_nil 0 (fun i hi j hj => h i hi j hj 0)
  rw [modulation]
  simp only [if_neg (by push_neg; exact ⟨hv, hx⟩ :
    ¬(v.length = 0 ∨ (activeXyz s).length = 0))]
  unfold minmaxK
  rw [h0]
  rfl

/-- A single active source at distance 99 from the test face. -/
def sFar : SourceSet := ⟨[⟨1, 0, 0⟩], [2], [false]⟩

/-- A single face whose three corners all sit at x = 100. -/
def vFar : List Face3 := [⟨⟨100, 0, 0⟩, ⟨100, 0, 1⟩, ⟨100, 0, 2⟩⟩]

theorem modulation_all_empty_raises_witness :
    vFar.length ≠ 0 ∧ (activeXyz sFar).length ≠ 0 ∧
    modulation sFar vFar 1 true =
      .error
        "zero-size array to reduction operation minimum which has no identity" :=
  ⟨by norm_num [vFar], by norm_num [sFar, activeXyz],
   modulation_all_empty_raises sFar vFar 1 true (by norm_num [vFar])
     (by norm_num [sFar, activeXyz])
     (by
      intro i hi j hj k
      have hi0 : i = 0 := by simp [vFar] at hi; omega
      have hj0 : j = 0 := by simp [activeXyz, sFar] at hj; omega
      subst hi0; subst hj0
      fin_cases k <;>
        norm_num [inclEntry, included, distLe, sqdist, activeXyz, sFar, vFar,
          Face3.corner])⟩

/-- C3 counterexample: one active source at `(1,0,0)`, one face at x = 100,
radius 1: every corner-set is empty, and `_modulation` raises numpy's
empty-reduction `ValueError` instead of returning the per-corner modulation
values unchanged. -/
theorem modulation_all_empty_not_noop :
    modulation sFar vFar 1 true =
      .error
        "zero-size array to reduction operation minimum which has no identity" := by
  have h0 : nnzK vFar (activeXyz sFar) 1 true 0 = [] :=
    nnzK_eq_nil 0 (by
      intro i hi j hj
      have hi0 : i = 0 := by simp [vFar] at hi; omega
      have hj0 : j = 0 := by simp [activeXyz, sFar] at hj; omega
      subst hi0; subst hj0
      norm_num [inclEntry, included, distLe, sqdist, activeXyz, sFar, vFar,
        Face3.corner])
  rw [modulation]
  simp only [if_neg (by norm_num [vFar, activeXyz, sFar] :
    ¬(vFar.length = 0 ∨ (activeXyz sFar).length = 0))]
  unfold minmaxK
  rw [h0]
  rfl

/-! ## The overlay store (`BrainVisual.add_overlay` / `update_colormap`)

The per-vertex tables `self._xrange` and `self._alphas` of shape
`(n_vertices, n_slots)` are modelled as lists of columns (one column per
overlay slot, each of length `nVert`); the LUT texture `self._text2d_data`
of shape `(n_slots, 1024, 4)` as a list of rows.  `add_overlay` mutates the
python object in place, so the embedding returns the state together with an
optional error: on an error the returned state carries the mutations
performed before the raising line.
-/

/-- An RGBA colour. -/
abbrev Rgba := ℚ × ℚ × ℚ × ℚ

/-- `LUT_LEN = 1024` (brain_visual.py line 34). -/
def LUT_LEN : ℕ := 1024

/-- `np.linspace a b n` (`n ≥ 2` in all uses: `n = LUT_LEN`). -/
def linspace (a b : ℚ) (n : ℕ) : List ℚ :=
  (List.range n).map (fun i => a + (b - a) * i / ((n : ℚ) - 1))

/-- The overlay-related state of a `BrainVisual` object. -/
structure OverlayState where
  nVert : ℕ
  xrange : List (List ℚ)
  alphas : List (List ℚ)
  text2d : List (List Rgba)
  dataLim : List (ℚ × ℚ)
  nOverlay : ℕ
  bgdData : List ℚ
  deriving DecidableEq, Repr

/-- The overlay-related state right after `set_data` (lines 298-315, without
sulcus): two zero columns in `_xrange` and `_alphas`, two zero LUT rows in
`_text2d_data`, no recorded data range, `_n_overlay = 0`, zero background
data. -/
def initOverlay (n : ℕ) : OverlayState where
  nVert := n
  xrange := List.replicate 2 (List.replicate n 0)
  alphas := List.replicate 2 (List.replicate n 0)
  text2d := List.replicate 2 (List.replicate LUT_LEN (0, 0, 0, 0))
  dataLim := []
  nOverlay := 0
  bgdData := List.replicate n 0

/-- numpy boolean-mask assignment of a vector: `col[sel] = vals` writes the
entries of `vals` in order at the positions where `sel` is true. -/
def writeAt : List ℚ → List Bool → List ℚ → List ℚ
  | [], _, _ => []
  | col, [], _ => col
  | c :: cs, b :: bs, vals =>
    if b then vals.headD c :: writeAt cs bs vals.tail
    else c :: writeAt cs bs vals

/-- numpy boolean-mask assignment of a scalar: `col[sel] = x`. -/
def writeConst : List ℚ → List Bool → ℚ → List ℚ
  | [], _, _ => []
  | col, [], _ => col
  | c :: cs, b :: bs, x => (if b then x else c) :: writeConst cs bs x

/-- The number of selected positions of a boolean mask. -/
def countTrue (l : List Bool) : ℕ := (l.filter id).length

/-- Modelled from the spec: `normalize` from `visbrain.utils` (not under
`src/`) as used by `add_overlay` line 361.  Spec §4.2: the store normalizes
`values` into per-slot coordinates in [0, 1]; §7: min = max degenerates to
an identity rescale rather than an error. -/
def normalize01 (l : List ℚ) : List ℚ :=
  if listMin l = listMax l then l
  else l.map (fun x => (x - listMin l) / (listMax l - listMin l))

theorem writeAt_writeAt (col : List ℚ) (sel : List Bool) (vals : List ℚ) :
    writeAt (writeAt col sel vals) sel vals = writeAt col sel vals := by
  induction col generalizing sel vals with
  | nil => cases sel <;> rfl
  | cons c cs ih =>
    cases sel with
    | nil => rfl
    | cons b bs =>
      by_cases hb : b
      · subst hb
        simp only [writeAt, if_pos trivial, ih]
        cases vals <;> rfl
      · simp only [hb] at *
        simp only [writeAt, if_neg (by simp : ¬(false = true)), ih]

theorem writeConst_writeConst (col : List ℚ) (sel : List Bool) (x : ℚ) :
    writeConst (writeConst col sel x) sel x = writeConst col sel x := by
  induction col generalizing sel with
  | nil => cases sel <;> rfl
  | cons c cs ih =>
    cases sel with
    | nil => rfl
    | cons b bs =>
      simp only [writeConst, ih]
      cases b <;> simp

theorem append_singleton_set {α : Type} (l : List α) (a : α) :
    (l ++ [a]).set l.length a = l ++ [a] := by
  induction l with
  | nil => rfl
  | cons x xs ih => simp [List.set, ih]

theorem getD_set_self {α : Type} (l : List α) (n : ℕ) (a d : α)
    (h : n < l.length) : (l.set n a).getD n d = a := by
  rw [List.getD_eq_getElem?_getD, List.getElem?_set_self (by simpa using h)]
  rfl

/-- Embedding of `BrainVisual.add_overlay` (lines 317-394).  `cmapFn` is the
externally supplied colormap function (`Colormap(**kwargs).to_rgba`),
applied to `np.linspace(data_lim[0], data_lim[1], LUT_LEN)`.  The error
strings follow numpy: an empty `data` makes `data.min()` raise before any
mutation; the fancy assignments of line 361 raise after `_data_lim` and the
table reshape have already been written, so those branches return the
partially mutated state. -/
def addOverlay (s : OverlayState) (dat : List ℚ)
    (vertices : Option (List Bool)) (to? : Option ℕ)
    (maskData : Option (List Bool)) (cmapFn : List ℚ → List Rgba) :
    OverlayState × Option String :=
  let sel := vertices.getD (List.replicate s.nVert true)
  match dat with
  | [] => (s, some
      "zero-size array to reduction operation minimum which has no identity")
  | d :: ds =>
    let lim : ℚ × ℚ := (listMin (d :: ds), listMax (d :: ds))
    let t := to?.getD s.nOverlay
    let dataLim' :=
      if s.dataLim.length < t + 1 then s.dataLim ++ [lim]
      else s.dataLim.set t lim
    let grow := s.xrange.length ≤ t
    let xr := if grow then s.xrange ++ [List.replicate s.nVert 0]
              else s.xrange
    let al := if grow then s.alphas ++ [List.replicate s.nVert 0]
              else s.alphas
    let t2 := if grow then s.text2d ++ [List.replicate LUT_LEN (0, 0, 0, 0)]
              else s.text2d
    let s1 : OverlayState :=
      { s with dataLim := dataLim', xrange := xr, alphas := al, text2d := t2 }
    if sel.length ≠ s.nVert then
      (s1, some "boolean index did not match indexed array")
    else if xr.length ≤ t then
      (s1, some "index is out of bounds")
    else if countTrue sel ≠ (d :: ds).length then
      (s1, some "shape mismatch: value array could not be broadcast")
    else
      ({ s1 with
          xrange := xr.set t (writeAt (xr.getD t []) sel (normalize01 (d :: ds)))
          alphas := al.set t (writeConst (al.getD t []) sel 1)
          text2d := t2.set t (cmapFn (linspace lim.1 lim.2 LUT_LEN))
          bgdData :=
            match maskData with
            | some mk =>
              if mk.length = s.nVert then writeConst s.bgdData mk (1 / 2)
              else s.bgdData
            | none => s.bgdData
          nOverlay := t + 1 }, none)

/-- The result of a successful `add_overlay` call with an explicit slot `t`,
spelled out: used to reason about repeated calls. -/
theorem addOverlay_explicit (s : OverlayState) (d0 : ℚ) (ds : List ℚ)
    (vertices : Option (List Bool)) (t : ℕ) (maskData : Option (List Bool))
    (cmapFn : List ℚ → List Rgba)
    (hsel : (vertices.getD (List.replicate s.nVert true)).length = s.nVert)
    (hcnt : countTrue (vertices.getD (List.replicate s.nVert true)) =
      (d0 :: ds).length)
    (hxr : t < (if s.xrange.length ≤ t then
      s.xrange ++ [List.replicate s.nVert 0] else s.xrange).length) :
    addOverlay s (d0 :: ds) vertices (some t) maskData cmapFn =
      ({ nVert := s.nVert
         xrange := (if s.xrange.length ≤ t then
             s.xrange ++ [List.replicate s.nVert 0] else s.xrange).set t
           (writeAt ((if s.xrange.length ≤ t then
               s.xrange ++ [List.replicate s.nVert 0] else s.xrange).getD t [])
             (vertices.getD (List.replicate s.nVert true))
             (normalize01 (d0 :: ds)))
         alphas := (if s.xrange.length ≤ t then
             s.alphas ++ [List.replicate s.nVert 0] else s.alphas).set t
           (writeConst ((if s.xrange.length ≤ t then
               s.alphas ++ [List.replicate s.nVert 0] else s.alphas).getD t [])
             (vertices.getD (List.replicate s.nVert true)) 1)
         text2d := (if s.xrange.length ≤ t then
             s.text2d ++ [List.replicate LUT_LEN (0, 0, 0, 0)]
           else s.text2d).set t
           (cmapFn (linspace (listMin (d0 :: ds)) (listMax (d0 :: ds))
             LUT_LEN))
         dataLim := if s.dataLim.length < t + 1 then
             s.dataLim ++ [(listMin (d0 :: ds), listMax (d0 :: ds))]
           else s.dataLim.set t (listMin (d0 :: ds), listMax (d0 :: ds))
         nOverlay := t + 1
         bgdData := match maskData with
           | some mk => if mk.length = s.nVert then
               writeConst s.bgdData mk (1 / 2) else s.bgdData
           | none => s.bgdData }, none) := by
  simp only [addOverlay, Option.getD_some]
  rw [if_neg (by simp [hsel]), if_neg (not_le.2 hxr), if_neg (by simp [hcnt])]

/-- C6 amended: calling `add_overlay` a second time with arguments identical
to the first call leaves every per-slot table bit-for-bit unchanged
PROVIDED the slot is passed explicitly (and addresses a slot within the
recorded ranges and the allocated tables); with the default slot argument
the claim fails: the second call targets the next slot (see the
counterexample). -/
theorem addOverlay_idempotent_explicit (s : OverlayState) (d0 : ℚ)
    (ds : List ℚ) (vertices : Option (List Bool)) (t : ℕ)
    (maskData : Option (List Bool)) (cmapFn : List ℚ → List Rgba)
    (hsel : (vertices.getD (List.replicate s.nVert true)).length = s.nVert)
    (hcnt : countTrue (vertices.getD (List.replicate s.nVert true)) =
      (d0 :: ds).length)
    (hlim : t ≤ s.dataLim.length) (hcap : t ≤ s.xrange.length)
    (hal : s.alphas.length = s.xrange.length) :
    addOverlay (addOverlay s (d0 :: ds) vertices (some t) maskData cmapFn).1
        (d0 :: ds) vertices (some t) maskData cmapFn =
      addOverlay s (d0 :: ds) vertices (some t) maskData cmapFn ∧
    (addOverlay s (d0 :: ds) vertices (some t) maskData cmapFn).2 = none := by
  have hxr1 : t < (if s.xrange.length ≤ t then
      s.xrange ++ [List.replicate s.nVert 0] else s.xrange).length := by
    by_cases h : s.xrange.length ≤ t
    · rw [if_pos h]
      simp only [List.length_append, List.length_cons, List.length_nil]
      omega
    · rw [if_neg h]
      omega
  have hal1 : t < (if s.xrange.length ≤ t then
      s.alphas ++ [List.replicate s.nVert 0] else s.alphas).length := by
    by_cases h : s.xrange.length ≤ t
    · rw [if_pos h]
      simp only [List.length_append, List.length_cons, List.length_nil]
      omega
    · rw [if_neg h]
      omega
  have e1 := addOverlay_explicit s d0 ds vertices t maskData cmapFn hsel
    hcnt hxr1
  refine ⟨?_, by rw [e1]⟩
  rw [e1]
  dsimp only
  rw [addOverlay_explicit _ d0 ds vertices t maskData cmapFn
    (by dsimp only; exact hsel) (by dsimp only; exact hcnt)
    (by
      dsimp only
      simp only [List.length_set]
      rw [if_neg (not_le.2 hxr1)]
      simp only [List.length_set]
      exact hxr1)]
  dsimp only
  congr 1
  congr 1
  · simp only [List.length_set]
    rw [if_neg (not_le.2 hxr1)]
    rw [getD_set_self _ _ _ _ hxr1, writeAt_writeAt, List.set_set]
  · simp only [List.length_set]
    rw [if_neg (not_le.2 hxr1)]
    rw [getD_set_self _ _ _ _ hal1, writeConst_writeConst, List.set_set]
  · simp only [List.length_set]
    rw [if_neg (not_le.2 hxr1)]
    rw [List.set_set]
  · by_cases hdl : s.dataLim.length < t + 1
    · rw [if_pos hdl]
      have ht : t = s.dataLim.length := by omega
      rw [if_neg (by
        simp only [List.length_append, List.length_cons, List.length_nil]
        omega)]
      subst ht
      exact append_singleton_set _ _
    · rw [if_neg hdl, if_neg (by simp only [List.length_set]; omega),
        List.set_set]
  · cases maskData with
    | none => rfl
    | some mk =>
      dsimp only
      by_cases hmk : mk.length = s.nVert
      · rw [if_pos hmk, if_pos hmk, writeConst_writeConst]
      · rw [if_neg hmk, if_neg hmk]

/-- C6 counterexample: two `add_overlay` calls with bit-identical arguments
(slot argument left at its default `None`) do NOT leave the per-slot state
unchanged: the first call bumps `_n_overlay` from 0 to 1, so the second call
targets slot 1 and, among others, the recorded data-range list changes from
one entry to two. -/
theorem addOverlay_default_slot_drifts :
    (addOverlay (addOverlay (initOverlay 2) [1, 2] none none none
          (fun _ => [])).1 [1, 2] none none none (fun _ => [])).1.dataLim ≠
      (addOverlay (initOverlay 2) [1, 2] none none none
          (fun _ => [])).1.dataLim := by
  intro h
  have hlen := congrArg List.length h
  revert hlen
  decide

theorem addOverlay_idempotent_explicit_witness :
    ((none : Option (List Bool)).getD
        (List.replicate (initOverlay 2).nVert true)).length =
      (initOverlay 2).nVert ∧
    countTrue ((none : Option (List Bool)).getD
        (List.replicate (initOverlay 2).nVert true)) =
      ([1, 2] : List ℚ).length ∧
    (addOverlay (addOverlay (initOverlay 2) [1, 2] none (some 0) none
          (fun _ => [])).1 [1, 2] none (some 0) none (fun _ => []) =
        addOverlay (initOverlay 2) [1, 2] none (some 0) none (fun _ => []) ∧
      (addOverlay (initOverlay 2) [1, 2] none (some 0) none
          (fun _ => [])).2 = none) :=
  ⟨by norm_num [initOverlay],
   by norm_num [initOverlay, countTrue, List.replicate, List.filter],
   addOverlay_idempotent_explicit (initOverlay 2) 1 [2] none 0 none
     (fun _ => []) (by norm_num [initOverlay])
     (by norm_num [initOverlay, countTrue, List.replicate, List.filter])
     (by norm_num [initOverlay]) (by norm_num [initOverlay])
     (by norm_num [initOverlay])⟩

/-- Embedding of `BrainVisual.update_colormap` (lines 396-415): when at
least one overlay exists, recompute the addressed slot's LUT row from that
slot's recorded `_data_lim` entry; with no overlay, do nothing. -/
def updateColormap (s : OverlayState) (to? : Option ℕ)
    (cmapFn : List ℚ → List Rgba) : OverlayState × Option String :=
  if 1 ≤ s.nOverlay then
    let ov := to?.getD (s.nOverlay - 1)
    match s.dataLim.get? ov with
    | none => (s, some "list index out of range")
    | some lim =>
      ({ s with text2d := s.text2d.set ov (cmapFn (linspace lim.1 lim.2
          LUT_LEN)) }, none)
  else (s, none)

theorem addOverlay_col_lengths (s : OverlayState) (d0 : ℚ) (ds : List ℚ)
    (vertices : Option (List Bool)) (to? : Option ℕ)
    (maskData : Option (List Bool)) (cmapFn : List ℚ → List Rgba) :
    ((addOverlay s (d0 :: ds) vertices to? maskData cmapFn).1.xrange.length =
        if s.xrange.length ≤ to?.getD s.nOverlay then s.xrange.length + 1
        else s.xrange.length) ∧
    ((addOverlay s (d0 :: ds) vertices to? maskData cmapFn).1.alphas.length =
        if s.xrange.length ≤ to?.getD s.nOverlay then s.alphas.length + 1
        else s.alphas.length) ∧
    ((addOverlay s (d0 :: ds) vertices to? maskData cmapFn).1.text2d.length =
        if s.xrange.length ≤ to?.getD s.nOverlay then s.text2d.length + 1
        else s.text2d.length) := by
  simp only [addOverlay]
  split_ifs <;>
    simp_all [List.length_set, List.length_append]

/-- C7: a call of `add_overlay` with a slot index at or beyond the current
allocation (and a nonempty data array, so that `data.min()` does not raise
first) grows each per-slot table by exactly one slot — also when the slot
index is too far beyond the allocation for the subsequent write, which
raises after the reshape; and NO call ever shrinks the tables. -/
theorem addOverlay_growth (s : OverlayState) (dat : List ℚ)
    (vertices : Option (List Bool)) (to? : Option ℕ)
    (maskData : Option (List Bool)) (cmapFn : List ℚ → List Rgba) :
    (s.xrange.length ≤
        (addOverlay s dat vertices to? maskData cmapFn).1.xrange.length ∧
      s.alphas.length ≤
        (addOverlay s dat vertices to? maskData cmapFn).1.alphas.length ∧
      s.text2d.length ≤
        (addOverlay s dat vertices to? maskData cmapFn).1.text2d.length) ∧
    (dat ≠ [] → s.xrange.length ≤ to?.getD s.nOverlay →
      ((addOverlay s dat vertices to? maskData cmapFn).1.xrange.length =
          s.xrange.length + 1 ∧
        (addOverlay s dat vertices to? maskData cmapFn).1.alphas.length =
          s.alphas.length + 1 ∧
        (addOverlay s dat vertices to? maskData cmapFn).1.text2d.length =
          s.text2d.length + 1)) := by
  cases dat with
  | nil =>
    refine ⟨⟨?_, ?_, ?_⟩, fun hd _ => absurd rfl hd⟩ <;> simp [addOverlay]
  | cons d ds =>
    obtain ⟨hx, ha, ht⟩ :=
      addOverlay_col_lengths s d ds vertices to? maskData cmapFn
    constructor
    · refine ⟨?_, ?_, ?_⟩
      · rw [hx]; split <;> omega
      · rw [ha]; split <;> omega
      · rw [ht]; split <;> omega
    · intro _ hge
      exact ⟨by rw [hx, if_pos hge], by rw [ha, if_pos hge],
        by rw [ht, if_pos hge]⟩

theorem addOverlay_growth_witness :
    ((initOverlay 2).xrange.length ≤
        (addOverlay (initOverlay 2) [1, 2] none (some 5) none
          (fun _ => [])).1.xrange.length ∧
      (initOverlay 2).alphas.length ≤
        (addOverlay (initOverlay 2) [1, 2] none (some 5) none
          (fun _ => [])).1.alphas.length ∧
      (initOverlay 2).text2d.length ≤
        (addOverlay (initOverlay 2) [1, 2] none (some 5) none
          (fun _ => [])).1.text2d.length) ∧
    ((addOverlay (initOverlay 2) [1, 2] none (some 5) none
          (fun _ => [])).1.xrange.length =
        (initOverlay 2).xrange.length + 1 ∧
      (addOverlay (initOverlay 2) [1, 2] none (some 5) none
          (fun _ => [])).1.alphas.length =
        (initOverlay 2).alphas.length + 1 ∧
      (addOverlay (initOverlay 2) [1, 2] none (some 5) none
          (fun _ => [])).1.text2d.length =
        (initOverlay 2).text2d.length + 1) := by
  have h := addOverlay_growth (initOverlay 2) [1, 2] none (some 5) none
    (fun _ => [])
  exact ⟨h.1, h.2 (by simp) (by norm_num [initOverlay])⟩

/-- C8: `update_colormap` on a slot recomputes only that slot's LUT row,
from the range recorded for the slot when its data was added; the per-vertex
coordinate and alpha tables, the background data, the recorded ranges, and
the LUT rows of every other slot are left unchanged. -/
theorem updateColormap_recomputes_only_slot (s : OverlayState) (ov : ℕ)
    (cmapFn : List ℚ → List Rgba) (lim : ℚ × ℚ)
    (hn : 1 ≤ s.nOverlay) (hov : s.dataLim.get? ov = some lim) :
    updateColormap s (some ov) cmapFn =
      ({ s with text2d := s.text2d.set ov (cmapFn (linspace lim.1 lim.2 LUT_LEN)) }, none) ∧
    (updateColormap s (some ov) cmapFn).1.xrange = s.xrange ∧
    (updateColormap s (some ov) cmapFn).1.alphas = s.alphas ∧
    (updateColormap s (some ov) cmapFn).1.bgdData = s.bgdData ∧
    (updateColormap s (some ov) cmapFn).1.dataLim = s.dataLim ∧
    (∀ r, r ≠ ov → (updateColormap s (some ov) cmapFn).1.text2d.get? r =
      s.text2d.get? r) ∧
    (ov < s.text2d.length →
      (updateColormap s (some ov) cmapFn).1.text2d.get? ov =
        some (cmapFn (linspace lim.1 lim.2 LUT_LEN))) := by
  have e : updateColormap s (some ov) cmapFn =
      ({ s with text2d := s.text2d.set ov (cmapFn (linspace lim.1 lim.2 LUT_LEN)) }, none) := by
    rw [updateColormap, if_pos hn]
    simp only [Option.getD_some, hov]
  refine ⟨e, by rw [e], by rw [e], by rw [e], by rw [e], ?_, ?_⟩
  · intro r hr
    rw [e]
    exact List.get?_set_ne _ _ (fun h => hr h.symm)
  · intro hlt
    rw [e]
    exact List.get?_set_eq_of_lt _ hlt

/-- A one-vertex state with one recorded overlay, range (0, 10). -/
def sOne : OverlayState :=
  ⟨1, [[0]], [[0]], [[(0, 0, 0, 0)], [(0, 0, 0, 0)]], [(0, 10)], 1, [0]⟩

theorem updateColormap_recomputes_only_slot_witness :
    1 ≤ sOne.nOverlay ∧ sOne.dataLim.get? 0 = some (0, 10) ∧
    (updateColormap sOne (some 0) (fun _ => [(1, 1, 1, 1)]) =
        ({ sOne with text2d := sOne.text2d.set 0 ((fun _ => [(1, 1, 1, 1)]) (linspace (0, 10).1 (0, 10).2 LUT_LEN)) }, none) ∧
      (updateColormap sOne (some 0) (fun _ => [(1, 1, 1, 1)])).1.xrange =
        sOne.xrange ∧
      (updateColormap sOne (some 0) (fun _ => [(1, 1, 1, 1)])).1.alphas =
        sOne.alphas ∧
      (updateColormap sOne (some 0) (fun _ => [(1, 1, 1, 1)])).1.bgdData =
        sOne.bgdData ∧
      (updateColormap sOne (some 0) (fun _ => [(1, 1, 1, 1)])).1.dataLim =
        sOne.dataLim ∧
      (∀ r, r ≠ 0 →
        (updateColormap sOne (some 0)
            (fun _ => [(1, 1, 1, 1)])).1.text2d.get? r =
          sOne.text2d.get? r) ∧
      (0 < sOne.text2d.length →
        (updateColormap sOne (some 0)
            (fun _ => [(1, 1, 1, 1)])).1.text2d.get? 0 =
          some ((fun _ => [(1, 1, 1, 1)])
            (linspace (0, 10).1 (0, 10).2 LUT_LEN)))) :=
  ⟨by norm_num [sOne], rfl,
   updateColormap_recomputes_only_slot sOne 0 (fun _ => [(1, 1, 1, 1)])
     (0, 10) (by norm_num [sOne]) rfl⟩

/-! ## Hemisphere index buffer (`BrainVisual.hemisphere` setter, lines 488-500) -/

/-- A triangular face as an index triple into the vertex table
(one row of `self._faces`). -/
abbrev FaceIdx := ℕ × ℕ × ℕ

/-- The three admissible values of the `hemisphere` property. -/
inductive Hemi
  | both
  | left
  | right

/-- Embedding of the `hemisphere` setter (lines 488-500): the index buffer is
all faces for `'both'`, the faces whose first vertex is flagged left in
`self._lr_index` for `'left'`, and the complementary faces for `'right'`.
`lr.getD f.1 false` models `self._lr_index[self._faces[:, 0]]`; the mesh
invariant keeps every face index within bounds of the per-vertex table. -/
def hemisphereIndex (faces : List FaceIdx) (lr : List Bool) : Hemi → List FaceIdx
  | .both => faces
  | .left => faces.filter (fun f => lr.getD f.1 false)
  | .right => faces.filter (fun f => !(lr.getD f.1 false))

/-- C9: for every mesh, the `'left'` and `'right'` face-index buffers are
disjoint as sets of faces, and their union as sets equals the `'both'`
index buffer. -/
theorem hemisphere_partition (faces : List FaceIdx) (lr : List Bool) :
    Disjoint (hemisphereIndex faces lr .left).toFinset
      (hemisphereIndex faces lr .right).toFinset ∧
    (hemisphereIndex faces lr .left).toFinset ∪
        (hemisphereIndex faces lr .right).toFinset =
      (hemisphereIndex faces lr .both).toFinset := by
  constructor
  · rw [Finset.disjoint_left]
    intro f hl hr
    simp only [hemisphereIndex, List.mem_toFinset, List.mem_filter] at hl hr
    rw [hl.2] at hr
    exact absurd hr.2 (by simp)
  · ext f
    simp only [hemisphereIndex, Finset.mem_union, List.mem_toFinset,
      List.mem_filter]
    constructor
    · rintro (h | h) <;> exact h.1
    · intro h
      by_cases hb : lr.getD f.1 false
      · exact Or.inl ⟨h, hb⟩
      · refine Or.inr ⟨h, ?_⟩
        simp only [Bool.not_eq_true, List.getD_eq_getElem?_getD] at hb
        simp [hb]

/-! ## Alpha setter (`BrainVisual.alpha`, lines 545-553) -/

/-- Embedding of the `alpha` setter (lines 545-553): the stored value is
`min(value, .1)` when `self._translucent` holds, and `1.` otherwise. -/
def alphaSetter (translucent : Bool) (value : ℚ) : ℚ :=
  if translucent then min value (1 / 10) else 1

/-- C10: the stored alpha is not the requested value in general: when
translucent is false it is exactly 1 whatever was requested, and when
translucent is true it is `min value 0.1`, hence never exceeds 0.1. -/
theorem alpha_setter_clamps (value : ℚ) :
    alphaSetter false value = 1 ∧
    alphaSetter true value = min value (1 / 10) ∧
    alphaSetter true value ≤ 1 / 10 := by
  refine ⟨rfl, rfl, ?_⟩
  simp only [alphaSetter, if_pos]
  exact min_le_right _ _

end Visbrain
